import Mathlib

/-!
Verification of the image-reference extraction and canonicalization core
(pkg/engine/context/imageutils.go).  Strings are embedded as lists of
characters; Go functions are translated one-to-one into executable Lean
definitions, and the claimed properties are proved about them.
-/

set_option autoImplicit false

/-- Strings of the Go source are embedded as lists of characters. -/
abbrev Str := List Char

/-- Splits a list at the first occurrence of a character: returns the part
before and the part after that occurrence, or none when absent.  This embeds
the combination of strings.IndexRune with slicing used by the Go code. -/
def splitFirst (c : Char) : Str → Option (Str × Str)
  | [] => none
  | x :: xs =>
    if x = c then some ([], xs)
    else (splitFirst c xs).map (fun p => (x :: p.1, p.2))

/-- Splits a list at the last occurrence of a character (strings.LastIndex). -/
def splitLast (c : Char) (l : Str) : Option (Str × Str) :=
  match splitFirst c l.reverse with
  | some (a, b) => some (b.reverse, a.reverse)
  | none => none

/-- Embeds strings.Join: concatenates the parts with the separator between. -/
def joinStr (sep : Str) : List Str → Str
  | [] => []
  | [x] => x
  | x :: xs => x ++ sep ++ joinStr sep xs

/-- Embeds strconv.Itoa for the (non-negative) loop index. -/
def itoa (n : Nat) : Str := (Nat.repr n).toList

/-- The tested condition of addDefaultDomain on the leading segment, i.e. the
segment already looks like a registry domain: it contains a dot or a colon, or
is exactly localhost, or is changed by lower-casing (contains an upper-case
letter).  This is the negation of the Go condition
!ContainsAny(s, ".:") AND s != "localhost" AND ToLower(s) == s. -/
def looksLikeDomain (pre : Str) : Prop :=
  ('.' ∈ pre ∨ ':' ∈ pre) ∨ pre = ("localhost".toList) ∨ pre.map Char.toLower ≠ pre

instance (pre : Str) : Decidable (looksLikeDomain pre) := by
  unfold looksLikeDomain; infer_instance

/-- Embeds addDefaultDomain (imageutils.go:170-176): prefixes docker.io/ when
the input has no slash, or when its leading segment does not look like a
registry domain. -/
def addDefaultDomain (name : Str) : Str :=
  match splitFirst '/' name with
  | none => ("docker.io/".toList) ++ name
  | some (pre, _) =>
    if looksLikeDomain pre then name else ("docker.io/".toList) ++ name

/-- Character allowed inside a repository-path component. -/
def isPathChar (c : Char) : Bool :=
  c.isLower || c.isDigit || c = '.' || c = '_' || c = '-'

/-- Character allowed inside a tag. -/
def isTagChar (c : Char) : Bool :=
  c.isAlphanum || c = '_' || c = '.' || c = '-'

/-- Character allowed inside a digest algorithm name. -/
def isAlgoChar (c : Char) : Bool := c.isAlpha || c.isDigit

/-- Hexadecimal character of a digest. -/
def isHexChar (c : Char) : Bool :=
  c.isDigit || ('a' ≤ c && c ≤ 'f') || ('A' ≤ c && c ≤ 'F')

/-- Validity of a repository path: one or more slash-separated components,
each non-empty and made of path characters.  The Boolean argument records
whether the current component already has at least one character. -/
def validPathCore : Str → Bool → Bool
  | [], seen => seen
  | c :: rest, seen =>
    if c = '/' then seen && validPathCore rest false
    else isPathChar c && validPathCore rest true

/-- Modelled from the spec: validity of the path part of a reference
(spec section 4.1: path is one or more slash-separated segments; empty path
and invalid characters are parse errors). -/
def validPath (p : Str) : Bool := validPathCore p false

/-- Modelled from the spec: validity of a tag (an opaque non-empty token
without separator characters). -/
def validTag (t : Str) : Bool := !t.isEmpty && t.all isTagChar

/-- Modelled from the spec: validity of a digest, of the form algorithm:hex
with a non-empty algorithm and at least 32 hexadecimal characters
(spec section 4.1: malformed digest algorithm or length is a parse error). -/
def validDigest (d : Str) : Bool :=
  match splitFirst ':' d with
  | some (algo, hex) =>
    !algo.isEmpty && algo.all isAlgoChar && decide (32 ≤ hex.length) && hex.all isHexChar
  | none => false

/-- Raw result of the reference grammar: domain, path, tag and digest parts,
each empty when absent. -/
structure RawRef where
  domain : Str
  path : Str
  tag : Str
  digest : Str
deriving DecidableEq, Repr

/-- Splits off the digest at the first at-sign, when present. -/
def splitDigest (s : Str) : Str × Option Str :=
  match splitFirst '@' s with
  | some (a, b) => (a, some b)
  | none => (s, none)

/-- Splits off the tag: the first colon occurring after the last slash
separates the name from the tag. -/
def splitTag (nt : Str) : Str × Option Str :=
  match splitLast '/' nt with
  | none =>
    match splitFirst ':' nt with
    | some (n, t) => (n, some t)
    | none => (nt, none)
  | some (pre, last) =>
    match splitFirst ':' last with
    | some (n2, t) => (pre ++ '/' :: n2, some t)
    | none => (nt, none)

/-- Splits the domain from the name: the leading segment is the domain
exactly when it looks like a registry domain (spec section 4.1: the domain is
distinguished from the leading path segment by the DomainDefaulter
heuristic). -/
def splitDomain (name : Str) : Str × Str :=
  match splitFirst '/' name with
  | some (pre, rest) =>
    if looksLikeDomain pre then (pre, rest) else ([], name)
  | none => ([], name)

/-- Validates the path after all splits and assembles the raw reference. -/
def parseName (name : Str) (t dg : Str) : Except Str RawRef :=
  let dp := splitDomain name
  if validPath dp.2 then Except.ok ⟨dp.1, dp.2, t, dg⟩
  else Except.error ("invalid reference format".toList)

/-- Splits and validates the tag, then parses the name. -/
def parseNameTag (nt : Str) (dg : Str) : Except Str RawRef :=
  match (splitTag nt).2 with
  | some t =>
    if validTag t then parseName (splitTag nt).1 t dg
    else Except.error ("invalid tag format".toList)
  | none => parseName (splitTag nt).1 [] dg

/-- Modelled from the spec: the reference grammar
domain-slash-opt path tag-or-digest-opt of spec section 4.1.  The Go code
calls reference.Parse of the distribution library, which is not part of this
repository; the grammar is reconstructed from the words of the spec. -/
def referenceParse (s : Str) : Except Str RawRef :=
  match (splitDigest s).2 with
  | some dg =>
    if validDigest dg then parseNameTag (splitDigest s).1 dg
    else Except.error ("invalid digest format".toList)
  | none => parseNameTag (splitDigest s).1 []

/-- Embeds the ImageInfo struct (imageutils.go:15-33). -/
structure ImageInfo where
  registry : Str
  name : Str
  path : Str
  tag : Str
  digest : Str
  jsonPointer : Str
deriving DecidableEq, Repr

/-- Embeds the String method of ImageInfo (imageutils.go:35-42): the tag form
is computed first and overridden by the digest form when a digest is
present. -/
def ImageInfo.toStr (i : ImageInfo) : Str :=
  let image := i.registry ++ '/' :: i.path ++ ':' :: i.tag
  if i.digest ≠ [] then i.registry ++ '/' :: i.path ++ '@' :: i.digest
  else image

/-- Embeds path slicing after strings.LastIndex(path, slash): the last
slash-separated segment, or the whole string when there is no slash. -/
def lastSegment (p : Str) : Str :=
  match splitLast '/' p with
  | some (_, last) => last
  | none => p

/-- Embeds newImageInfo (imageutils.go:138-168): default the domain, parse,
derive the short name from the path, and default the tag to latest when
neither tag nor digest is present. -/
def newImageInfo (image jsonPointer : Str) : Except Str ImageInfo :=
  let image := addDefaultDomain image
  match referenceParse image with
  | Except.error e =>
    Except.error (("bad image: ".toList) ++ image ++ (": ".toList) ++ e)
  | Except.ok r =>
    Except.ok
      { registry := r.domain
        name := lastSegment r.path
        path := r.path
        tag := if r.digest = [] ∧ r.tag = [] then ("latest".toList) else r.tag
        digest := r.digest
        jsonPointer := jsonPointer }

/-- Embeds the untyped tree values of unstructured Kubernetes manifests
(map-of-string, slice, string, number, boolean, null). -/
inductive JSON where
  | null : JSON
  | bool : Bool → JSON
  | num : Int → JSON
  | str : Str → JSON
  | arr : List JSON → JSON
  | obj : List (Str × JSON) → JSON

/-- Embeds Go map indexing on an object: the value of the first field with
the given key, when present. -/
def lookupField : List (Str × JSON) → Str → Option JSON
  | [], _ => none
  | (k, v) :: rest, key => if k = key then some v else lookupField rest key

/-- Embeds the navigation part of unstructured.NestedSlice: each intermediate
step must be an object holding the field. -/
def nestedField : JSON → List Str → Option JSON
  | v, [] => some v
  | JSON.obj fs, k :: ks =>
    match lookupField fs k with
    | some v => nestedField v ks
    | none => none
  | _, _ :: _ => none

/-- Embeds unstructured.NestedSlice: resolves the field path and requires the
final value to be a slice; ok is false otherwise. -/
def nestedSlice (res : JSON) (fields : List Str) : Option (List JSON) :=
  match nestedField res fields with
  | some (JSON.arr xs) => some xs
  | _ => none

/-- Embeds the ContainerImage struct (imageutils.go:44-47). -/
structure ContainerImage where
  info : ImageInfo
  name : Str
deriving DecidableEq, Repr

/-- Outcome of the loop body of convertToImageInfo on one container entry:
the entry is skipped (not a map), causes a run-time panic (name absent or not
a string, or image present but not a string), yields an image, or yields a
recoverable parse-error message. -/
inductive EntryRes where
  | skip : EntryRes
  | abort : EntryRes
  | img : ContainerImage → EntryRes
  | perr : Str → EntryRes
deriving DecidableEq, Repr

/-- Result of parsing one container entry with a name and an image string:
the json pointer is the slash-join of the list pointer, the index and the
image field name (imageutils.go:122-127). -/
def entryStep (jsonPath : Str) (index : Nat) (name image : Str) : EntryRes :=
  match newImageInfo image (joinStr (['/']) [jsonPath, itoa index, ("image".toList)]) with
  | Except.ok info => EntryRes.img ⟨info, name⟩
  | Except.error e => EntryRes.perr e

/-- The loop body of convertToImageInfo (imageutils.go:115-130) on one entry:
non-map entries are skipped, a missing or non-string name panics, a missing
image field defaults to the empty string, a present non-string image
panics. -/
def entryRes (jsonPath : Str) (index : Nat) (ctr : JSON) : EntryRes :=
  match ctr with
  | JSON.obj fs =>
    match lookupField fs ("name".toList) with
    | some (JSON.str name) =>
      match lookupField fs ("image".toList) with
      | some (JSON.str image) => entryStep jsonPath index name image
      | some _ => EntryRes.abort
      | none => entryStep jsonPath index name []
    | _ => EntryRes.abort
  | _ => EntryRes.skip

/-- The loop of convertToImageInfo: accumulates images and error messages in
order and aborts the whole run on a panic (none models the Go panic
propagating to the caller).  The index increment sits at the end of the Go
loop body, so the continue taken on a parse error (imageutils.go:126) skips
it: after a parse failure the index is NOT incremented. -/
def convertLoop (jsonPath : Str) : List JSON → Nat → Option (List ContainerImage × List Str)
  | [], _ => some ([], [])
  | ctr :: rest, index =>
    match entryRes jsonPath index ctr with
    | EntryRes.skip => convertLoop jsonPath rest (index + 1)
    | EntryRes.abort => none
    | EntryRes.img c =>
      (convertLoop jsonPath rest (index + 1)).map (fun r => (c :: r.1, r.2))
    | EntryRes.perr e =>
      (convertLoop jsonPath rest index).map (fun r => (r.1, e :: r.2))

/-- Embeds convertToImageInfo (imageutils.go:112-136): runs the loop from
index zero and joins the collected error messages with a semicolon; the error
is nil exactly when no message was collected.  The outer none models a panic
escaping the function. -/
def convertToImageInfo (containers : List JSON) (jsonPath : Str) :
    Option (List ContainerImage × Option Str) :=
  (convertLoop jsonPath containers 0).map
    (fun r => (r.1, if r.2 = [] then none else some (joinStr ([';']) r.2)))

/-- Embeds extractImageInfos (imageutils.go:104-110): the error is only
logged, the images are returned. -/
def extractImageInfos (containers : List JSON) (jsonPath : Str) :
    Option (List ContainerImage) :=
  (convertToImageInfo containers jsonPath).map (fun r => r.1)

/-- Embeds imageExtractor.extract (imageutils.go:79-85): appends the list
name to the field prefix, resolves it as a slice and extracts; a missing or
non-slice field yields the empty result. -/
def extract (fields : List Str) (tag : Str) (resource : JSON) :
    Option (List ContainerImage) :=
  match nestedSlice resource (fields ++ [tag]) with
  | some containers =>
    extractImageInfos containers ('/' :: joinStr (['/']) (fields ++ [tag]))
  | none => some []

/-- Embeds the extractors table (imageutils.go:87-94); indexing a Go map with
an absent key yields the zero value, here the empty field list. -/
def extractors (kind : Str) : List Str :=
  if kind = ("Pod".toList) then [("spec".toList)]
  else if kind = ("CronJob".toList) then
    [("spec".toList), ("jobTemplate".toList), ("spec".toList), ("template".toList), ("spec".toList)]
  else if kind = ("Deployment".toList) then
    [("spec".toList), ("template".toList), ("spec".toList)]
  else if kind = ("DaemonSet".toList) then
    [("spec".toList), ("template".toList), ("spec".toList)]
  else if kind = ("Job".toList) then
    [("spec".toList), ("template".toList), ("spec".toList)]
  else if kind = ("StatefulSet".toList) then
    [("spec".toList), ("template".toList), ("spec".toList)]
  else []

/-- Embeds extractImageInfo (imageutils.go:96-102): extracts the three
container lists for the kind of the resource; none models a panic escaping
one of the three extractions. -/
def extractImageInfo (kind : Str) (resource : JSON) :
    Option (List ContainerImage × List ContainerImage × List ContainerImage) :=
  match extract (extractors kind) ("initContainers".toList) resource with
  | none => none
  | some initC =>
    match extract (extractors kind) ("containers".toList) resource with
    | none => none
    | some ctrs =>
      match extract (extractors kind) ("ephemeralContainers".toList) resource with
      | none => none
      | some eph => some (initC, ctrs, eph)

/-- Embeds the Images struct (imageutils.go:49-53); the Go maps from
container name to ImageInfo are embedded as association lists. -/
structure Images where
  initContainers : List (Str × ImageInfo)
  containers : List (Str × ImageInfo)
  ephemeralContainers : List (Str × ImageInfo)

/-- One JSON-patch replace operation as built by buildJSONPatch
(imageutils.go:186-189). -/
structure Patch where
  op : Str
  path : Str
  value : Str
deriving DecidableEq, Repr

/-- Embeds the three patch-building loops of MutateResourceWithImageInfo
(imageutils.go:190-199): one replace operation per image, in the order
containers, init containers, ephemeral containers. -/
def buildPatches (images : Images) : List Patch :=
  (images.containers.map
    (fun e => Patch.mk ("replace".toList) e.2.jsonPointer (ImageInfo.toStr e.2))) ++
  (images.initContainers.map
    (fun e => Patch.mk ("replace".toList) e.2.jsonPointer (ImageInfo.toStr e.2))) ++
  (images.ephemeralContainers.map
    (fun e => Patch.mk ("replace".toList) e.2.jsonPointer (ImageInfo.toStr e.2)))

/-- Embeds MutateResourceWithImageInfo (imageutils.go:181-205).  Modelled
from the spec: the patch application step (engineutils.ApplyPatches) and the
context update (AddResource) are external to this repository; the applier is
passed as a parameter, and the returned bytes are the patched document that
the Go code hands to AddResource (the raw input when the context holds no
image inventory). -/
def MutateResourceWithImageInfo (applyPatches : Str → List Patch → Except Str Str)
    (raw : Str) (images : Option Images) : Except Str Str :=
  match images with
  | none => Except.ok raw
  | some imgs =>
    match applyPatches raw (buildPatches imgs) with
    | Except.error e => Except.error e
    | Except.ok patched => Except.ok patched

/-- Agreement of a re-parse of the canonical string with the original
reference: registry, path, name and digest are identical; the tag is
identical whenever no digest is present, and is empty whenever a digest is
present (the canonical string drops the tag in that case). -/
def RoundTripAgrees (i : ImageInfo) (r : Except Str ImageInfo) : Prop :=
  match r with
  | Except.ok j =>
    j.registry = i.registry ∧ j.path = i.path ∧ j.name = i.name ∧
    j.digest = i.digest ∧ (i.digest = [] → j.tag = i.tag) ∧
    (i.digest ≠ [] → j.tag = [])
  | Except.error _ => False

/-- Reference string carrying both a tag and a digest, used to refute the
unamended round-trip claim. -/
def cexBothStr : Str := ("docker.io/busybox:v1@sha256:".toList) ++ List.replicate 64 'a'

/-- Parse result of cexBothStr: both the tag and the digest are retained. -/
def cexBothFirst : ImageInfo :=
  { registry := ("docker.io".toList), name := ("busybox".toList),
    path := ("busybox".toList), tag := ("v1".toList),
    digest := ("sha256:".toList) ++ List.replicate 64 'a', jsonPointer := [] }

/-- Re-parse of the canonical string of cexBothFirst: the tag is lost. -/
def cexBothSecond : ImageInfo :=
  { registry := ("docker.io".toList), name := ("busybox".toList),
    path := ("busybox".toList), tag := [],
    digest := ("sha256:".toList) ++ List.replicate 64 'a', jsonPointer := [] }

/-- Parse result of the plain reference busybox, for the round-trip witness. -/
def c4wInfo : ImageInfo :=
  { registry := ("docker.io".toList), name := ("busybox".toList),
    path := ("busybox".toList), tag := ("latest".toList), digest := [],
    jsonPointer := [] }

/-- Per-entry outcomes of the loop, in order, with the index each entry
receives; mirrors the index threading of the loop, where a parse error does
not advance the index (the Go continue skips the increment). -/
def entryResList (jsonPath : Str) : List JSON → Nat → List EntryRes
  | [], _ => []
  | c :: rest, index =>
    match entryRes jsonPath index c with
    | EntryRes.perr e => EntryRes.perr e :: entryResList jsonPath rest index
    | EntryRes.skip => EntryRes.skip :: entryResList jsonPath rest (index + 1)
    | EntryRes.abort => EntryRes.abort :: entryResList jsonPath rest (index + 1)
    | EntryRes.img c2 => EntryRes.img c2 :: entryResList jsonPath rest (index + 1)

/-- The images among a list of entry outcomes, in order. -/
def filterImgs (l : List EntryRes) : List ContainerImage :=
  l.filterMap (fun r => match r with | EntryRes.img c => some c | _ => none)

/-- The parse-error messages among a list of entry outcomes, in order. -/
def filterErrs (l : List EntryRes) : List Str :=
  l.filterMap (fun r => match r with | EntryRes.perr e => some e | _ => none)

/-- Container list whose first entry has a malformed image string
(upper-case letters in the path are rejected by the grammar) followed by one
valid entry. -/
def c1wList : List JSON :=
  [JSON.obj [(("name".toList), JSON.str ("b".toList)),
             (("image".toList), JSON.str ("Busybox".toList))],
   JSON.obj [(("name".toList), JSON.str ("a".toList)),
             (("image".toList), JSON.str ("busybox".toList))]]

/-- The single successfully parsed entry of c1wList; its pointer carries
index 0 because the preceding parse failure does not advance the index. -/
def c1wImgs : List ContainerImage :=
  [⟨{ registry := ("docker.io".toList), name := ("busybox".toList),
      path := ("busybox".toList), tag := ("latest".toList), digest := [],
      jsonPointer := ("/spec/containers/0/image".toList) }, ("a".toList)⟩]

/-- The aggregate error message produced for c1wList. -/
def c1wErr : Str := ("bad image: docker.io/Busybox: invalid reference format".toList)

/-- Concrete container list whose second entry lacks the name field. -/
def c8wList : List JSON :=
  [JSON.obj [(("name".toList), JSON.str ("a".toList)),
             (("image".toList), JSON.str ("busybox".toList))],
   JSON.obj [(("image".toList), JSON.str ("busybox".toList))]]

/-- Error message produced for a container entry without an image field. -/
def missingImageErr : Str :=
  ("bad image: docker.io/: invalid reference format".toList)

/-- Manifest of an unrecognized kind carrying a top-level containers list. -/
def c2Manifest : JSON :=
  JSON.obj [(("containers".toList),
    JSON.arr [JSON.obj [(("name".toList), JSON.str ("a".toList)),
                        (("image".toList), JSON.str ("busybox".toList))]])]

/-- The condition of the domain-defaulting claim, stated in the words of the
spec: the input contains no slash, or the leading segment before the first
slash contains neither a dot nor a colon, is not exactly localhost, and is
unchanged by lower-casing. -/
def addsDefault (s : Str) : Prop :=
  match splitFirst '/' s with
  | none => True
  | some (pre, _) =>
    ¬('.' ∈ pre ∨ ':' ∈ pre) ∧ pre ≠ ("localhost".toList) ∧
      pre.map Char.toLower = pre

instance (s : Str) : Decidable (addsDefault s) := by
  unfold addsDefault
  cases splitFirst '/' s with
  | none => exact inferInstanceAs (Decidable True)
  | some p => exact inferInstanceAs (Decidable (_ ∧ _ ∧ _))

/-- Reference with both a non-empty tag and a digest, for the rendering
witness. -/
def c6wInfo : ImageInfo :=
  { registry := ("docker.io".toList), name := ("busybox".toList),
    path := ("busybox".toList), tag := ("v1".toList),
    digest := ("sha256:".toList) ++ List.replicate 64 'b', jsonPointer := [] }

/-- Container entry whose image string is malformed, placed before a valid
entry to exhibit the pointer-index slip of the loop. -/
def c3BugBad : JSON :=
  JSON.obj [(("name".toList), JSON.str ("b".toList)),
            (("image".toList), JSON.str ("Busybox".toList))]

/-- Valid container entry sitting at 0-based position 1 of the failing
list. -/
def c3BugGood : JSON :=
  JSON.obj [(("name".toList), JSON.str ("a".toList)),
            (("image".toList), JSON.str ("busybox".toList))]

/-- Pod manifest whose containers list is [c3BugBad, c3BugGood]. -/
def c3BugManifest : JSON :=
  JSON.obj [(("spec".toList),
    JSON.obj [(("containers".toList), JSON.arr [c3BugBad, c3BugGood])])]

/-- The image extracted for c3BugGood: its pointer carries index 0 although
the entry sits at 0-based position 1, because the preceding parse failure
skipped the index increment. -/
def c3BugImg : ContainerImage :=
  ⟨{ registry := ("docker.io".toList), name := ("busybox".toList),
     path := ("busybox".toList), tag := ("latest".toList), digest := [],
     jsonPointer := ("/spec/containers/0/image".toList) }, ("a".toList)⟩

theorem splitFirst_eq_none {c : Char} {l : Str} : splitFirst c l = none ↔ c ∉ l := by
  induction l with
  | nil => simp [splitFirst]
  | cons x xs ih =>
    by_cases h : x = c
    · subst h; simp [splitFirst]
    · cases hs : splitFirst c xs with
      | none =>
        have hx : c ∉ xs := ih.mp hs
        simp only [splitFirst, if_neg h, hs, Option.map_none, List.mem_cons]
        constructor
        · intro _ hc
          rcases hc with hc | hc
          · exact h hc.symm
          · exact hx hc
        · intro _; rfl
      | some p =>
        have hx : c ∈ xs := by
          by_contra hcon
          rw [ih.mpr hcon] at hs
          exact Option.noConfusion hs
        simp only [splitFirst, if_neg h, hs, Option.map_some, List.mem_cons]
        constructor
        · intro hcon; exact Option.noConfusion hcon
        · intro hcon; exact absurd (Or.inr hx) hcon

theorem splitFirst_eq_some {c : Char} {l a b : Str}
    (h : splitFirst c l = some (a, b)) : l = a ++ c :: b ∧ c ∉ a := by
  induction l generalizing a b with
  | nil => simp [splitFirst] at h
  | cons x xs ih =>
    by_cases hx : x = c
    · subst hx
      simp only [splitFirst, eq_self_iff_true, reduceIte, Option.some.injEq,
        Prod.mk.injEq] at h
      obtain ⟨ha, hb⟩ := h
      rw [← ha, ← hb]
      simp
    · cases hs : splitFirst c xs with
      | none =>
        rw [splitFirst] at h
        rw [if_neg hx, hs] at h
        exact Option.noConfusion h
      | some p =>
        obtain ⟨a1, b1⟩ := p
        rw [splitFirst] at h
        rw [if_neg hx, hs] at h
        have h2 : ((x :: a1 : Str), b1) = (a, b) := Option.some.inj h
        obtain ⟨hl, hn⟩ := ih hs
        have ha : a = x :: a1 := (congrArg Prod.fst h2).symm
        have hb : b = b1 := (congrArg Prod.snd h2).symm
        subst ha; subst hb
        rw [hl]
        refine ⟨by simp, ?_⟩
        simp only [List.mem_cons, not_or]
        exact ⟨fun hcon => hx hcon.symm, hn⟩

theorem splitFirst_append_of_notMem {c : Char} {a : Str} (b : Str) (ha : c ∉ a) :
    splitFirst c (a ++ b) = (splitFirst c b).map (fun p => (a ++ p.1, p.2)) := by
  induction a with
  | nil =>
    simp only [List.nil_append]
    cases hb : splitFirst c b with
    | none => simp
    | some p => simp
  | cons x xs ih =>
    simp only [List.mem_cons, not_or] at ha
    obtain ⟨hx, hxs⟩ := ha
    have hx2 : x ≠ c := fun hcon => hx hcon.symm
    simp only [List.cons_append, splitFirst, if_neg hx2, List.append_eq]
    rw [ih hxs]
    cases hb : splitFirst c b with
    | none => simp
    | some p => simp

theorem splitFirst_of_notMem {c : Char} {a : Str} (b : Str) (ha : c ∉ a) :
    splitFirst c (a ++ c :: b) = some (a, b) := by
  rw [splitFirst_append_of_notMem (c :: b) ha]
  simp [splitFirst]

theorem splitFirst_append_left {c : Char} {a x y : Str} (b : Str)
    (h : splitFirst c a = some (x, y)) : splitFirst c (a ++ b) = some (x, y ++ b) := by
  obtain ⟨hl, hn⟩ := splitFirst_eq_some h
  subst hl
  have := splitFirst_of_notMem (b := y ++ b) (c := c) (a := x) hn
  simpa using this

theorem splitLast_eq_none {c : Char} {l : Str} : splitLast c l = none ↔ c ∉ l := by
  unfold splitLast
  cases hr : splitFirst c l.reverse with
  | none =>
    have := splitFirst_eq_none.mp hr
    simp only [List.mem_reverse] at this
    simp [this]
  | some p =>
    obtain ⟨a, b⟩ := p
    obtain ⟨hl, _⟩ := splitFirst_eq_some hr
    have hmem : c ∈ l := by
      rw [← List.mem_reverse, hl]
      simp
    simp [hmem]

theorem splitLast_eq_some {c : Char} {l a b : Str}
    (h : splitLast c l = some (a, b)) : l = a ++ c :: b ∧ c ∉ b := by
  unfold splitLast at h
  cases hr : splitFirst c l.reverse with
  | none => rw [hr] at h; simp at h
  | some p =>
    obtain ⟨x, y⟩ := p
    rw [hr] at h
    simp only [Option.some.injEq, Prod.mk.injEq] at h
    obtain ⟨ha, hb⟩ := h
    obtain ⟨hl, hn⟩ := splitFirst_eq_some hr
    have hl2 : l = y.reverse ++ c :: x.reverse := by
      have := congrArg List.reverse hl
      simpa [List.reverse_append] using this
    subst ha; subst hb
    refine ⟨hl2, ?_⟩
    simpa using hn

theorem splitLast_of_notMem {c : Char} {a : Str} (b : Str) (hb : c ∉ b) :
    splitLast c (a ++ c :: b) = some (a, b) := by
  unfold splitLast
  have hrev : (a ++ c :: b).reverse = b.reverse ++ c :: a.reverse := by
    simp [List.reverse_append]
  rw [hrev, splitFirst_of_notMem a.reverse (by simpa using hb)]
  simp

theorem splitLast_append {c : Char} (a b : Str) :
    splitLast c (a ++ c :: b) =
      match splitLast c b with
      | none => some (a, b)
      | some (x, y) => some (a ++ c :: x, y) := by
  cases hb : splitLast c b with
  | none => exact splitLast_of_notMem b (splitLast_eq_none.mp hb)
  | some p =>
    obtain ⟨x, y⟩ := p
    obtain ⟨hbl, hy⟩ := splitLast_eq_some hb
    subst hbl
    have : a ++ c :: (x ++ c :: y) = (a ++ c :: x) ++ c :: y := by simp
    rw [this, splitLast_of_notMem y hy]

theorem band_inv {a b : Bool} (h : (a && b) = true) : a = true ∧ b = true := by
  cases a <;> cases b <;> simp_all

theorem not_mem_of_all {P : Char → Bool} {l : Str} {x : Char}
    (h : l.all P = true) (hx : P x = false) : x ∉ l := by
  intro hm
  have hall := List.all_eq_true.mp h x hm
  rw [hx] at hall
  exact Bool.noConfusion hall

theorem notMem_append_cons {x c : Char} {a b : Str}
    (hx1 : x ∉ a) (hx2 : x ≠ c) (hx3 : x ∉ b) : x ∉ a ++ c :: b := by
  intro hm
  rcases List.mem_append.mp hm with hm | hm
  · exact hx1 hm
  · rcases List.mem_cons.mp hm with hm | hm
    · exact hx2 hm
    · exact hx3 hm

theorem looksLikeDomain_ne_nil {pre : Str} (h : looksLikeDomain pre) : pre ≠ [] := by
  intro hc
  subst hc
  revert h
  decide

theorem validPathCore_chars {p : Str} : ∀ {s : Bool}, validPathCore p s = true →
    ∀ x ∈ p, isPathChar x = true ∨ x = '/' := by
  induction p with
  | nil => intro s _ x hx; simp at hx
  | cons c rest ih =>
    intro s h x hx
    rw [validPathCore] at h
    by_cases hc : c = '/'
    · rw [if_pos hc] at h
      rcases List.mem_cons.mp hx with hx | hx
      · right; rw [hx, hc]
      · exact ih (band_inv h).2 x hx
    · rw [if_neg hc] at h
      rcases List.mem_cons.mp hx with hx | hx
      · left; rw [hx]; exact (band_inv h).1
      · exact ih (band_inv h).2 x hx

theorem validPathCore_suffix {b : Str} : ∀ (a : Str) {s : Bool},
    validPathCore (a ++ '/' :: b) s = true → validPathCore b false = true := by
  intro a
  induction a with
  | nil =>
    intro s h
    rw [List.nil_append, validPathCore, if_pos rfl] at h
    exact (band_inv h).2
  | cons c rest ih =>
    intro s h
    rw [List.cons_append, validPathCore] at h
    by_cases hc : c = '/'
    · rw [if_pos hc] at h
      exact ih (band_inv h).2
    · rw [if_neg hc] at h
      exact ih (band_inv h).2

theorem validPathCore_no_slash {p : Str} (h : validPathCore p false = true)
    (hp : '/' ∉ p) : p ≠ [] ∧ ∀ x ∈ p, isPathChar x = true := by
  constructor
  · intro hc
    subst hc
    exact Bool.noConfusion h
  · intro x hx
    rcases validPathCore_chars h x hx with h1 | h1
    · exact h1
    · rw [h1] at hx
      exact absurd hx hp

theorem validPath_not_colon {p : Str} (h : validPath p = true) : ':' ∉ p := by
  intro hc
  rcases validPathCore_chars h ':' hc with h1 | h1
  · exact absurd h1 (by decide)
  · exact absurd h1 (by decide)

theorem validPath_not_at {p : Str} (h : validPath p = true) : '@' ∉ p := by
  intro hc
  rcases validPathCore_chars h '@' hc with h1 | h1
  · exact absurd h1 (by decide)
  · exact absurd h1 (by decide)

theorem validTag_ne_nil {t : Str} (h : validTag t = true) : t ≠ [] := by
  intro hc
  subst hc
  exact Bool.noConfusion h

theorem validTag_chars {t : Str} (h : validTag t = true) : t.all isTagChar = true :=
  (band_inv h).2

theorem validTag_not_mem {t : Str} (h : validTag t = true) :
    '/' ∉ t ∧ ':' ∉ t ∧ '@' ∉ t :=
  ⟨not_mem_of_all (validTag_chars h) (by decide),
   not_mem_of_all (validTag_chars h) (by decide),
   not_mem_of_all (validTag_chars h) (by decide)⟩

theorem validDigest_inv {d : Str} (h : validDigest d = true) :
    d ≠ [] ∧ '/' ∉ d ∧ '@' ∉ d := by
  unfold validDigest at h
  cases hs : splitFirst ':' d with
  | none =>
    rw [hs] at h
    exact Bool.noConfusion h
  | some p =>
    obtain ⟨algo, hex⟩ := p
    rw [hs] at h
    simp only [Bool.and_eq_true] at h
    obtain ⟨⟨⟨_halgo1, halgo2⟩, _hlen⟩, hhex⟩ := h
    obtain ⟨hd, _hnc⟩ := splitFirst_eq_some hs
    subst hd
    refine ⟨by simp, ?_, ?_⟩
    · exact notMem_append_cons (not_mem_of_all halgo2 (by decide)) (by decide)
        (not_mem_of_all hhex (by decide))
    · exact notMem_append_cons (not_mem_of_all halgo2 (by decide)) (by decide)
        (not_mem_of_all hhex (by decide))

theorem parseName_ok {name t dg : Str} {raw : RawRef}
    (h : parseName name t dg = Except.ok raw) :
    raw = ⟨(splitDomain name).1, (splitDomain name).2, t, dg⟩ ∧
    validPath (splitDomain name).2 = true := by
  simp only [parseName] at h
  by_cases hv : validPath (splitDomain name).2 = true
  · rw [if_pos hv] at h
    exact ⟨(Except.ok.inj h).symm, hv⟩
  · rw [if_neg hv] at h
    exact Except.noConfusion h

theorem parseNameTag_ok {nt dg : Str} {raw : RawRef}
    (h : parseNameTag nt dg = Except.ok raw) :
    parseName (splitTag nt).1 raw.tag dg = Except.ok raw ∧
    ((splitTag nt).2 = some raw.tag ∧ validTag raw.tag = true ∨
      (splitTag nt).2 = none ∧ raw.tag = []) := by
  unfold parseNameTag at h
  split at h
  case h_1 t ht =>
    split at h
    case isTrue hv =>
      have htag : raw.tag = t := by rw [(parseName_ok h).1]
      rw [htag, ht]
      exact ⟨h, Or.inl ⟨rfl, htag ▸ hv⟩⟩
    case isFalse hv =>
      exact Except.noConfusion h
  case h_2 ht =>
    have htag : raw.tag = [] := by rw [(parseName_ok h).1]
    rw [htag, ht]
    exact ⟨h, Or.inr ⟨rfl, rfl⟩⟩

theorem referenceParse_ok {s : Str} {raw : RawRef}
    (h : referenceParse s = Except.ok raw) :
    parseNameTag (splitDigest s).1 raw.digest = Except.ok raw ∧
    ((splitDigest s).2 = some raw.digest ∧ validDigest raw.digest = true ∨
      (splitDigest s).2 = none ∧ raw.digest = []) := by
  unfold referenceParse at h
  split at h
  case h_1 dg hd =>
    split at h
    case isTrue hv =>
      have hdg : raw.digest = dg := by
        rw [((parseNameTag_ok h).1 |> parseName_ok).1]
      rw [hdg, hd]
      exact ⟨h, Or.inl ⟨rfl, hdg ▸ hv⟩⟩
    case isFalse hv =>
      exact Except.noConfusion h
  case h_2 hd =>
    have hdg : raw.digest = [] := by
      rw [((parseNameTag_ok h).1 |> parseName_ok).1]
    rw [hdg, hd]
    exact ⟨h, Or.inr ⟨rfl, rfl⟩⟩

theorem splitDigest_fst_shape {pre : Str} (rest : Str) (h : '@' ∉ pre) :
    ∃ r1, (splitDigest (pre ++ '/' :: rest)).1 = pre ++ '/' :: r1 := by
  unfold splitDigest
  rw [splitFirst_append_of_notMem ('/' :: rest) h]
  cases hs : splitFirst '@' ('/' :: rest) with
  | none => exact ⟨rest, rfl⟩
  | some p =>
    obtain ⟨x, y⟩ := p
    obtain ⟨hl, _hn⟩ := splitFirst_eq_some hs
    cases x with
    | nil => simp at hl
    | cons c x2 =>
      have hc : c = '/' := (List.cons.inj hl).1.symm
      subst hc
      exact ⟨x2, by simp⟩

theorem splitTag_fst_shape (pre r1 : Str) :
    ∃ x, (splitTag (pre ++ '/' :: r1)).1 = pre ++ '/' :: x := by
  unfold splitTag
  have hsl := splitLast_append pre r1 (c := '/')
  cases hr : splitLast '/' r1 with
  | none =>
    rw [hr] at hsl
    rw [hsl]
    cases hc : splitFirst ':' r1 with
    | none => exact ⟨r1, by simp [hc]⟩
    | some q =>
      obtain ⟨n2, t⟩ := q
      exact ⟨n2, by simp [hc]⟩
  | some p =>
    obtain ⟨x, y⟩ := p
    rw [hr] at hsl
    rw [hsl]
    cases hc : splitFirst ':' y with
    | none => exact ⟨r1, by simp [hc]⟩
    | some q =>
      obtain ⟨n2, t⟩ := q
      exact ⟨x ++ '/' :: n2, by simp [hc]⟩

theorem splitDomain_of_shape {pre x : Str} (h1 : '/' ∉ pre) (h3 : looksLikeDomain pre) :
    splitDomain (pre ++ '/' :: x) = (pre, x) := by
  unfold splitDomain
  rw [splitFirst_of_notMem x h1]
  simp [h3]

theorem referenceParse_domain {pre rest : Str} {raw : RawRef} (h1 : '/' ∉ pre)
    (h3 : looksLikeDomain pre)
    (h : referenceParse (pre ++ '/' :: rest) = Except.ok raw) :
    raw.domain = pre ∧ '@' ∉ pre := by
  have hat : '@' ∉ pre := by
    by_contra hat
    obtain ⟨a, a2, hl, hn⟩ : ∃ a a2, pre = a ++ '@' :: a2 ∧ '@' ∉ a := by
      cases hsp : splitFirst '@' pre with
      | none => exact absurd hat (splitFirst_eq_none.mp hsp)
      | some p =>
        obtain ⟨a, a2⟩ := p
        obtain ⟨hl, hn⟩ := splitFirst_eq_some hsp
        exact ⟨a, a2, hl, hn⟩
    have hs2 : pre ++ '/' :: rest = a ++ '@' :: (a2 ++ '/' :: rest) := by
      rw [hl]; simp
    have hsd : (splitDigest (pre ++ '/' :: rest)).2 = some (a2 ++ '/' :: rest) := by
      unfold splitDigest
      rw [hs2, splitFirst_of_notMem (a2 ++ '/' :: rest) hn]
    rcases (referenceParse_ok h).2 with ⟨heq, hv⟩ | ⟨hnone, _⟩
    · rw [hsd] at heq
      have hdg : raw.digest = a2 ++ '/' :: rest := (Option.some.inj heq).symm
      have hns := (validDigest_inv hv).2.1
      rw [hdg] at hns
      exact hns (by simp)
    · rw [hsd] at hnone
      exact Option.noConfusion hnone
  obtain ⟨r1, hr1⟩ := splitDigest_fst_shape rest hat
  obtain ⟨x, hx⟩ := splitTag_fst_shape pre r1
  have hpn := (parseNameTag_ok (referenceParse_ok h).1).1
  have hpo := (parseName_ok hpn).1
  rw [hr1, hx, splitDomain_of_shape h1 h3] at hpo
  refine ⟨?_, hat⟩
  rw [hpo]

theorem addDefaultDomain_shape (s : Str) :
    ∃ pre rest, addDefaultDomain s = pre ++ '/' :: rest ∧ '/' ∉ pre ∧
      looksLikeDomain pre := by
  unfold addDefaultDomain
  cases hs : splitFirst '/' s with
  | none =>
    exact ⟨("docker.io".toList), s, rfl, by decide, by decide⟩
  | some p =>
    obtain ⟨pre, rest⟩ := p
    by_cases hd : looksLikeDomain pre
    · obtain ⟨hl, hn⟩ := splitFirst_eq_some hs
      exact ⟨pre, rest, by simp [hd, hl], hn, hd⟩
    · exact ⟨("docker.io".toList), s, by simp [hd], by decide, by decide⟩

theorem newImageInfo_ok_inv {s jp : Str} {info : ImageInfo}
    (h : newImageInfo s jp = Except.ok info) :
    info.registry ≠ [] ∧ looksLikeDomain info.registry ∧ '/' ∉ info.registry ∧
    '@' ∉ info.registry ∧ validPath info.path = true ∧
    info.name = lastSegment info.path ∧ info.jsonPointer = jp ∧
    (info.digest = [] → validTag info.tag = true) ∧
    (info.digest ≠ [] → validDigest info.digest = true) := by
  simp only [newImageInfo] at h
  obtain ⟨pre, rest, hshape, hsl, hdom⟩ := addDefaultDomain_shape s
  rw [hshape] at h
  cases hr : referenceParse (pre ++ '/' :: rest) with
  | error e =>
    rw [hr] at h
    exact Except.noConfusion h
  | ok raw =>
    rw [hr] at h
    have hfields := Except.ok.inj h
    obtain ⟨hd, hat⟩ := referenceParse_domain hsl hdom hr
    have hfacts := referenceParse_ok hr
    have hnt := parseNameTag_ok hfacts.1
    have hpo := parseName_ok hnt.1
    have hpath : validPath raw.path = true := by
      have : raw.path = (splitDomain (splitTag (splitDigest (pre ++ '/' :: rest)).1).1).2 := by
        rw [hpo.1]
      rw [this]
      exact hpo.2
    rw [← hfields]
    refine ⟨?_, ?_, ?_, ?_, hpath, rfl, rfl, ?_, ?_⟩
    · simp only [hd]
      exact looksLikeDomain_ne_nil hdom
    · simp only [hd]
      exact hdom
    · simp only [hd]
      exact hsl
    · simp only [hd]
      exact hat
    · intro hdg
      simp only at hdg
      by_cases htg : raw.tag = []
      · simp only [if_pos (And.intro hdg htg)]
        decide
      · simp only [if_neg (fun hc : raw.digest = [] ∧ raw.tag = [] => htg hc.2)]
        rcases hnt.2 with ⟨_, hv⟩ | ⟨_, hz⟩
        · exact hv
        · exact absurd hz htg
    · intro hdg
      simp only at hdg
      rcases hfacts.2 with ⟨_, hv⟩ | ⟨_, hz⟩
      · exact hv
      · exact absurd hz hdg

theorem validPath_last_facts {p pp lc : Str} (h : validPath p = true)
    (hs : splitLast '/' p = some (pp, lc)) :
    lc ≠ [] ∧ '/' ∉ lc ∧ ':' ∉ lc ∧ '@' ∉ lc := by
  obtain ⟨hl, hn⟩ := splitLast_eq_some hs
  have hcore : validPathCore lc false = true := by
    have h2 : validPathCore (pp ++ '/' :: lc) false = true := by rw [← hl]; exact h
    exact validPathCore_suffix pp h2
  obtain ⟨hne, hall⟩ := validPathCore_no_slash hcore hn
  refine ⟨hne, hn, ?_, ?_⟩
  · intro hc
    exact absurd (hall ':' hc) (by decide)
  · intro hc
    exact absurd (hall '@' hc) (by decide)

theorem addDefaultDomain_of_domain {g rest : Str} (h1 : '/' ∉ g)
    (hd : looksLikeDomain g) :
    addDefaultDomain (g ++ '/' :: rest) = g ++ '/' :: rest := by
  unfold addDefaultDomain
  rw [splitFirst_of_notMem rest h1]
  simp [hd]

theorem splitDigest_of_notMem {s : Str} (h : '@' ∉ s) : splitDigest s = (s, none) := by
  unfold splitDigest
  rw [splitFirst_eq_none.mpr h]

theorem splitDigest_of_shape {a b : Str} (h : '@' ∉ a) :
    splitDigest (a ++ '@' :: b) = (a, some b) := by
  unfold splitDigest
  rw [splitFirst_of_notMem b h]

theorem splitTag_of_name {g p : Str} (hp : validPath p = true) :
    splitTag (g ++ '/' :: p) = (g ++ '/' :: p, none) := by
  unfold splitTag
  have houter := splitLast_append g p (c := '/')
  cases hip : splitLast '/' p with
  | none =>
    rw [hip] at houter
    rw [houter]
    simp only [splitFirst_eq_none.mpr (validPath_not_colon hp)]
  | some q =>
    obtain ⟨pp, lc⟩ := q
    obtain ⟨_, _, hlc_c, _⟩ := validPath_last_facts hp hip
    rw [hip] at houter
    rw [houter]
    simp only [splitFirst_eq_none.mpr hlc_c]

theorem splitTag_with_tag {g p t : Str} (hp : validPath p = true) (hts : '/' ∉ t) :
    splitTag (g ++ '/' :: (p ++ ':' :: t)) = (g ++ '/' :: p, some t) := by
  unfold splitTag
  have houter := splitLast_append g (p ++ ':' :: t) (c := '/')
  cases hip : splitLast '/' p with
  | none =>
    have hnp : '/' ∉ p := splitLast_eq_none.mp hip
    have hinner : splitLast '/' (p ++ ':' :: t) = none :=
      splitLast_eq_none.mpr (notMem_append_cons hnp (by decide) hts)
    rw [hinner] at houter
    rw [houter]
    simp only [splitFirst_of_notMem t (validPath_not_colon hp)]
  | some q =>
    obtain ⟨pp, lc⟩ := q
    obtain ⟨hl, _⟩ := splitLast_eq_some hip
    obtain ⟨_, hlc_s, hlc_c, _⟩ := validPath_last_facts hp hip
    have hshape2 : p ++ ':' :: t = pp ++ '/' :: (lc ++ ':' :: t) := by
      rw [hl]; simp
    have hinner : splitLast '/' (p ++ ':' :: t) = some (pp, lc ++ ':' :: t) := by
      rw [hshape2]
      exact splitLast_of_notMem _ (notMem_append_cons hlc_s (by decide) hts)
    rw [hinner] at houter
    rw [houter]
    simp only [splitFirst_of_notMem t hlc_c]
    rw [hl]
    simp

theorem reparse_canonical_tag {g p t : Str} (hdom : looksLikeDomain g)
    (h1 : '/' ∉ g) (h2 : '@' ∉ g) (hp : validPath p = true) (ht : validTag t = true)
    (jp : Str) :
    newImageInfo (g ++ '/' :: p ++ ':' :: t) jp =
      Except.ok { registry := g, name := lastSegment p, path := p, tag := t,
                  digest := [], jsonPointer := jp } := by
  obtain ⟨hts, _htc, hta⟩ := validTag_not_mem ht
  have hform : g ++ '/' :: p ++ ':' :: t = g ++ '/' :: (p ++ ':' :: t) := by simp
  rw [hform]
  have hne_at : '@' ∉ g ++ '/' :: (p ++ ':' :: t) :=
    notMem_append_cons h2 (by decide)
      (notMem_append_cons (validPath_not_at hp) (by decide) hta)
  have hsd : splitDigest (g ++ '/' :: (p ++ ':' :: t)) =
      (g ++ '/' :: (p ++ ':' :: t), none) := splitDigest_of_notMem hne_at
  have hst : splitTag (g ++ '/' :: (p ++ ':' :: t)) = (g ++ '/' :: p, some t) :=
    splitTag_with_tag hp hts
  have hsdm : splitDomain (g ++ '/' :: p) = (g, p) := splitDomain_of_shape h1 hdom
  simp only [newImageInfo, addDefaultDomain_of_domain h1 hdom, referenceParse, hsd,
    parseNameTag, hst, if_pos ht, parseName, hsdm, if_pos hp]
  simp [validTag_ne_nil ht]

theorem reparse_canonical_digest {g p dg : Str} (hdom : looksLikeDomain g)
    (h1 : '/' ∉ g) (h2 : '@' ∉ g) (hp : validPath p = true)
    (hdg : validDigest dg = true) (jp : Str) :
    newImageInfo (g ++ '/' :: p ++ '@' :: dg) jp =
      Except.ok { registry := g, name := lastSegment p, path := p, tag := [],
                  digest := dg, jsonPointer := jp } := by
  have hformA : g ++ '/' :: p ++ '@' :: dg = g ++ '/' :: (p ++ '@' :: dg) := by simp
  have hformB : g ++ '/' :: (p ++ '@' :: dg) = (g ++ '/' :: p) ++ '@' :: dg := by simp
  rw [hformA]
  have hadd : addDefaultDomain (g ++ '/' :: (p ++ '@' :: dg)) =
      g ++ '/' :: (p ++ '@' :: dg) := addDefaultDomain_of_domain h1 hdom
  have hsd : splitDigest (g ++ '/' :: (p ++ '@' :: dg)) = (g ++ '/' :: p, some dg) := by
    rw [hformB]
    exact splitDigest_of_shape (notMem_append_cons h2 (by decide) (validPath_not_at hp))
  have hst : splitTag (g ++ '/' :: p) = (g ++ '/' :: p, none) := splitTag_of_name hp
  have hsdm : splitDomain (g ++ '/' :: p) = (g, p) := splitDomain_of_shape h1 hdom
  simp only [newImageInfo, hadd, referenceParse, hsd, if_pos hdg, parseNameTag, hst,
    parseName, hsdm, if_pos hp]
  simp [(validDigest_inv hdg).1]

/-- C4 (amended): for every reference string accepted by the parsing
pipeline, re-parsing the rendered canonical string succeeds and yields
identical registry, path, name and digest; the tag is also identical unless
the original reference carries a digest, in which case the re-parsed tag is
empty (the canonical string drops the tag whenever a digest is present). -/
theorem claim_C4_roundtrip_amended {s jp : Str} {info : ImageInfo}
    (h : newImageInfo s jp = Except.ok info) :
    RoundTripAgrees info (newImageInfo (ImageInfo.toStr info) jp) := by
  obtain ⟨_hne, hdom, hsl, hat, hvp, hname, _hjp, htag, hdg⟩ := newImageInfo_ok_inv h
  by_cases hd : info.digest = []
  · have ht := htag hd
    have hre := reparse_canonical_tag hdom hsl hat hvp ht jp
    have htos : ImageInfo.toStr info =
        info.registry ++ '/' :: info.path ++ ':' :: info.tag := by
      simp only [ImageInfo.toStr, if_neg (not_not_intro hd)]
    rw [htos, hre]
    exact ⟨rfl, rfl, hname.symm, hd.symm, fun _ => rfl, fun hcon => absurd hd hcon⟩
  · have hv := hdg hd
    have hre := reparse_canonical_digest hdom hsl hat hvp hv jp
    have htos : ImageInfo.toStr info =
        info.registry ++ '/' :: info.path ++ '@' :: info.digest := by
      simp only [ImageInfo.toStr, if_pos hd]
    rw [htos, hre]
    exact ⟨rfl, rfl, hname.symm, rfl, fun hcon => absurd hcon hd, fun _ => rfl⟩

/-- C4 (counterexample): on a reference carrying both a tag and a digest,
parsing succeeds, re-parsing the canonical string succeeds, but the tag of
the re-parse differs from the tag of the original parse, so the round-trip
does not yield an identical structure. -/
theorem claim_C4_counterexample :
    newImageInfo cexBothStr [] = Except.ok cexBothFirst ∧
    newImageInfo (ImageInfo.toStr cexBothFirst) [] = Except.ok cexBothSecond ∧
    cexBothFirst.tag ≠ cexBothSecond.tag :=
  ⟨by rfl, by rfl, by decide⟩

/-- C4 (witness): the amended round-trip theorem applied to the concrete
reference busybox. -/
theorem claim_C4_witness :
    newImageInfo ("busybox".toList) [] = Except.ok c4wInfo ∧
    RoundTripAgrees c4wInfo (newImageInfo (ImageInfo.toStr c4wInfo) []) :=
  ⟨by rfl, claim_C4_roundtrip_amended (s := ("busybox".toList)) (by rfl)⟩

theorem convertLoop_eq_some (jsonPath : Str) (l : List JSON) (index : Nat)
    (h : EntryRes.abort ∉ entryResList jsonPath l index) :
    convertLoop jsonPath l index =
      some (filterImgs (entryResList jsonPath l index),
            filterErrs (entryResList jsonPath l index)) := by
  induction l generalizing index with
  | nil => simp [convertLoop, entryResList, filterImgs, filterErrs]
  | cons c rest ih =>
    cases he : entryRes jsonPath index c with
    | abort =>
      exfalso
      apply h
      simp only [entryResList, he]
      exact List.mem_cons_self _ _
    | skip =>
      have hn : EntryRes.abort ∉ entryResList jsonPath rest (index + 1) := by
        intro hc
        apply h
        simp only [entryResList, he]
        exact List.mem_cons_of_mem _ hc
      simp only [convertLoop, entryResList, he]
      rw [ih (index + 1) hn]
      simp [filterImgs, filterErrs]
    | img c2 =>
      have hn : EntryRes.abort ∉ entryResList jsonPath rest (index + 1) := by
        intro hc
        apply h
        simp only [entryResList, he]
        exact List.mem_cons_of_mem _ hc
      simp only [convertLoop, entryResList, he]
      rw [ih (index + 1) hn]
      simp [filterImgs, filterErrs]
    | perr e =>
      have hn : EntryRes.abort ∉ entryResList jsonPath rest index := by
        intro hc
        apply h
        simp only [entryResList, he]
        exact List.mem_cons_of_mem _ hc
      simp only [convertLoop, entryResList, he]
      rw [ih index hn]
      simp [filterImgs, filterErrs]

theorem convertLoop_eq_none (jsonPath : Str) (l : List JSON) (index : Nat)
    (h : EntryRes.abort ∈ entryResList jsonPath l index) :
    convertLoop jsonPath l index = none := by
  induction l generalizing index with
  | nil => simp [entryResList] at h
  | cons c rest ih =>
    cases he : entryRes jsonPath index c with
    | abort => simp only [convertLoop, he]
    | skip =>
      simp only [entryResList, he] at h
      rcases List.mem_cons.mp h with hc | hc
      · exact EntryRes.noConfusion hc
      · simp only [convertLoop, he]
        exact ih (index + 1) hc
    | img c2 =>
      simp only [entryResList, he] at h
      rcases List.mem_cons.mp h with hc | hc
      · exact EntryRes.noConfusion hc
      · simp only [convertLoop, he]
        rw [ih (index + 1) hc]
        rfl
    | perr e =>
      simp only [entryResList, he] at h
      rcases List.mem_cons.mp h with hc | hc
      · exact EntryRes.noConfusion hc
      · simp only [convertLoop, he]
        rw [ih index hc]
        rfl

theorem entryResList_mem_abort (jsonPath : Str) (l : List JSON) : ∀ (start : Nat)
    {ctr : JSON}, ctr ∈ l → (∀ i, entryRes jsonPath i ctr = EntryRes.abort) →
    EntryRes.abort ∈ entryResList jsonPath l start := by
  induction l with
  | nil => intro start ctr hmem _; simp at hmem
  | cons c rest ih =>
    intro start ctr hmem habort
    rcases List.mem_cons.mp hmem with hc | hc
    · subst hc
      simp only [entryResList, habort start]
      exact List.mem_cons_self _ _
    · cases he : entryRes jsonPath start c with
      | perr e =>
        simp only [entryResList, he]
        exact List.mem_cons_of_mem _ (ih start hc habort)
      | skip =>
        simp only [entryResList, he]
        exact List.mem_cons_of_mem _ (ih (start + 1) hc habort)
      | abort =>
        simp only [entryResList, he]
        exact List.mem_cons_self _ _
      | img c2 =>
        simp only [entryResList, he]
        exact List.mem_cons_of_mem _ (ih (start + 1) hc habort)

/-- C1: extraction is best-effort over one container list: when the loop
completes (no structural panic), the returned images are exactly the images
of the successfully parsed entries in order, regardless of parse failures on
other entries; the aggregate error is nil exactly when no entry failed to
parse, and otherwise it is the semicolon-join of all per-entry parse-error
messages. -/
theorem claim_C1_extraction_best_effort (l : List JSON) (jp : Str)
    (imgs : List ContainerImage) (err : Option Str)
    (h : convertToImageInfo l jp = some (imgs, err)) :
    imgs = filterImgs (entryResList jp l 0) ∧
    (err = none ↔ filterErrs (entryResList jp l 0) = []) ∧
    (∀ e, err = some e → e = joinStr ([';']) (filterErrs (entryResList jp l 0))) := by
  unfold convertToImageInfo at h
  by_cases hm : EntryRes.abort ∈ entryResList jp l 0
  · rw [convertLoop_eq_none jp l 0 hm] at h
    exact Option.noConfusion h
  · rw [convertLoop_eq_some jp l 0 hm] at h
    have h2 : ((filterImgs (entryResList jp l 0),
        if filterErrs (entryResList jp l 0) = [] then none
        else some (joinStr ([';']) (filterErrs (entryResList jp l 0)))) :
        List ContainerImage × Option Str) = (imgs, err) := Option.some.inj h
    have h3 : filterImgs (entryResList jp l 0) = imgs := congrArg Prod.fst h2
    have h4 : (if filterErrs (entryResList jp l 0) = [] then none
        else some (joinStr ([';']) (filterErrs (entryResList jp l 0)))) = err :=
      congrArg Prod.snd h2
    refine ⟨h3.symm, ?_, ?_⟩
    · by_cases hz : filterErrs (entryResList jp l 0) = []
      · rw [← h4, if_pos hz]
        exact ⟨fun _ => hz, fun _ => rfl⟩
      · rw [← h4, if_neg hz]
        exact ⟨fun hcon => Option.noConfusion hcon, fun hcon => absurd hcon hz⟩
    · intro e he
      rw [← h4] at he
      by_cases hz : filterErrs (entryResList jp l 0) = []
      · rw [if_pos hz] at he
        exact Option.noConfusion he
      · rw [if_neg hz] at he
        exact (Option.some.inj he).symm

/-- C1 (witness): the best-effort theorem applied to a concrete list with one
valid and one malformed entry; the valid entry is returned and the aggregate
error carries the detail of the malformed one. -/
theorem claim_C1_witness :
    convertToImageInfo c1wList ("/spec/containers".toList) =
      some (c1wImgs, some c1wErr) ∧
    (c1wImgs = filterImgs (entryResList ("/spec/containers".toList) c1wList 0) ∧
      ((some c1wErr : Option Str) = none ↔
        filterErrs (entryResList ("/spec/containers".toList) c1wList 0) = []) ∧
      (∀ e, (some c1wErr : Option Str) = some e →
        e = joinStr ([';']) (filterErrs (entryResList ("/spec/containers".toList) c1wList 0)))) :=
  ⟨by rfl, claim_C1_extraction_best_effort c1wList ("/spec/containers".toList)
    c1wImgs (some c1wErr) (by rfl)⟩

/-- C8: a mapping entry whose name field is absent or not a string makes the
whole collection abort abruptly: convertToImageInfo returns no result at all
(the Go type assertion panics), instead of recording a recoverable error and
continuing. -/
theorem claim_C8_missing_name_fatal (l : List JSON) (jp : Str) (idx : Nat)
    (fs : List (Str × JSON)) (hget : l.get? idx = some (JSON.obj fs))
    (hname : ∀ n, lookupField fs ("name".toList) ≠ some (JSON.str n)) :
    convertToImageInfo l jp = none := by
  have habort : ∀ i, entryRes jp i (JSON.obj fs) = EntryRes.abort := by
    intro i
    cases hl : lookupField fs ("name".toList) with
    | none => simp only [entryRes, hl]
    | some v =>
      cases v with
      | str n => exact absurd hl (hname n)
      | null => simp only [entryRes, hl]
      | bool b => simp only [entryRes, hl]
      | num m => simp only [entryRes, hl]
      | arr xs => simp only [entryRes, hl]
      | obj gs => simp only [entryRes, hl]
  have hmem : EntryRes.abort ∈ entryResList jp l 0 :=
    entryResList_mem_abort jp l 0 (List.get?_mem hget) habort
  unfold convertToImageInfo
  rw [convertLoop_eq_none jp l 0 hmem]
  rfl

/-- C8 (witness): the abort theorem applied to a concrete list containing an
entry without a name field. -/
theorem claim_C8_witness :
    convertToImageInfo c8wList ("/spec/containers".toList) = none :=
  claim_C8_missing_name_fatal c8wList ("/spec/containers".toList) 1
    [(("image".toList), JSON.str ("busybox".toList))] (by rfl)
    (fun n => by intro hcon; exact Option.noConfusion hcon)

/-- C10: a container entry whose image field is absent (but whose name is a
string) never yields an image: the image string defaults to empty, domain
defaulting turns it into docker.io/ only, parsing that fails, and the entry
contributes a parse error to the aggregate. -/
theorem claim_C10_missing_image (jp : Str) (idx : Nat) (fs : List (Str × JSON))
    (n : Str) (hname : lookupField fs ("name".toList) = some (JSON.str n))
    (himg : lookupField fs ("image".toList) = none) :
    addDefaultDomain [] = ("docker.io/".toList) ∧
    newImageInfo [] (joinStr (['/']) [jp, itoa idx, ("image".toList)]) =
      Except.error missingImageErr ∧
    entryRes jp idx (JSON.obj fs) = EntryRes.perr missingImageErr := by
  refine ⟨by decide, by rfl, ?_⟩
  simp only [entryRes, hname, himg, entryStep]
  rw [show newImageInfo [] (joinStr (['/']) [jp, itoa idx, ("image".toList)]) =
    Except.error missingImageErr from rfl]

/-- C10 (witness): the missing-image theorem applied to a concrete entry with
a name and no image field. -/
theorem claim_C10_witness :
    addDefaultDomain [] = ("docker.io/".toList) ∧
    newImageInfo [] (joinStr (['/']) [("/spec/containers".toList), itoa 0, ("image".toList)]) =
      Except.error missingImageErr ∧
    entryRes ("/spec/containers".toList) 0
      (JSON.obj [(("name".toList), JSON.str ("a".toList))]) =
      EntryRes.perr missingImageErr :=
  claim_C10_missing_image ("/spec/containers".toList) 0
    [(("name".toList), JSON.str ("a".toList))] ("a".toList) (by rfl) (by rfl)

/-- C2 (counterexample): Foo is not a recognized workload kind, yet
extraction on a manifest of kind Foo with a top-level containers list is not
empty: the zero-value extractor has an empty path prefix, so the top-level
list is found and its image is extracted with pointer /containers/0/image. -/
theorem claim_C2_counterexample :
    ("Foo".toList) ∉ [("Pod".toList), ("Deployment".toList), ("DaemonSet".toList),
      ("Job".toList), ("StatefulSet".toList), ("CronJob".toList)] ∧
    extractImageInfo ("Foo".toList) c2Manifest =
      some ([],
        [⟨{ registry := ("docker.io".toList), name := ("busybox".toList),
            path := ("busybox".toList), tag := ("latest".toList), digest := [],
            jsonPointer := ("/containers/0/image".toList) }, ("a".toList)⟩], []) ∧
    extractImageInfo ("Foo".toList) c2Manifest ≠ some ([], [], []) :=
  ⟨by decide, by rfl, by decide⟩

/-- C2 (amended): for a kind outside the extractor table, the Go map lookup
yields the zero-value extractor whose field prefix is empty, so the three
container lists are read from the top level of the manifest; extraction
yields three empty lists when no top-level field named initContainers,
containers or ephemeralContainers resolves to a slice. -/
theorem claim_C2_amended (kind : Str) (res : JSON)
    (hk : kind ∉ [("Pod".toList), ("Deployment".toList), ("DaemonSet".toList),
      ("Job".toList), ("StatefulSet".toList), ("CronJob".toList)]) :
    extractors kind = [] ∧
    (nestedSlice res [("initContainers".toList)] = none →
     nestedSlice res [("containers".toList)] = none →
     nestedSlice res [("ephemeralContainers".toList)] = none →
     extractImageInfo kind res = some ([], [], [])) := by
  simp only [List.mem_cons, List.not_mem_nil, or_false, not_or] at hk
  obtain ⟨hPod, hDep, hDae, hJob, hSts, hCron⟩ := hk
  have hext : extractors kind = [] := by
    unfold extractors
    rw [if_neg hPod, if_neg hCron, if_neg hDep, if_neg hDae, if_neg hJob, if_neg hSts]
  refine ⟨hext, ?_⟩
  intro h1 h2 h3
  unfold extractImageInfo
  rw [hext]
  simp only [extract, List.nil_append, h1, h2, h3]

/-- C2 (witness): the amended theorem applied to the kind Foo and a manifest
without top-level container lists. -/
theorem claim_C2_witness :
    extractors ("Foo".toList) = [] ∧
    extractImageInfo ("Foo".toList) (JSON.obj [(("spec".toList), JSON.null)]) =
      some ([], [], []) :=
  ⟨(claim_C2_amended ("Foo".toList) (JSON.obj [(("spec".toList), JSON.null)])
      (by decide)).1,
   (claim_C2_amended ("Foo".toList) (JSON.obj [(("spec".toList), JSON.null)])
      (by decide)).2 (by rfl) (by rfl) (by rfl)⟩

theorem addDefaultDomain_ne (s : Str) : ("docker.io/".toList) ++ s ≠ s := by
  intro hcon
  have hlen := congrArg List.length hcon
  simp at hlen
  omega

/-- C5: domain defaulting returns docker.io/ prefixed to the input exactly
when the input has no slash, or its leading segment contains neither a dot
nor a colon, is not exactly localhost, and is unchanged by lower-casing; in
every other case the input is returned unchanged. -/
theorem claim_C5_domain_defaulting (s : Str) :
    (addDefaultDomain s = if addsDefault s then ("docker.io/".toList) ++ s else s) ∧
    (addDefaultDomain s = ("docker.io/".toList) ++ s ↔ addsDefault s) := by
  have hmain : addDefaultDomain s =
      if addsDefault s then ("docker.io/".toList) ++ s else s := by
    by_cases hcnd : addsDefault s
    · rw [if_pos hcnd]
      unfold addDefaultDomain
      cases hs : splitFirst '/' s with
      | none => rfl
      | some p =>
        obtain ⟨pre, rest⟩ := p
        unfold addsDefault at hcnd
        rw [hs] at hcnd
        obtain ⟨hna, hnb, hc⟩ := hcnd
        have hnd : ¬looksLikeDomain pre := by
          intro hd
          rcases hd with hd | hd | hd
          · exact hna hd
          · exact hnb hd
          · exact hd hc
        simp only [if_neg hnd]
    · rw [if_neg hcnd]
      unfold addDefaultDomain
      cases hs : splitFirst '/' s with
      | none =>
        unfold addsDefault at hcnd
        rw [hs] at hcnd
        exact absurd trivial hcnd
      | some p =>
        obtain ⟨pre, rest⟩ := p
        unfold addsDefault at hcnd
        rw [hs] at hcnd
        by_cases hd : looksLikeDomain pre
        · simp only [if_pos hd]
        · exfalso
          apply hcnd
          unfold looksLikeDomain at hd
          push_neg at hd
          obtain ⟨h1, h2, h3⟩ := hd
          refine ⟨?_, h2, h3⟩
          intro hor
          rcases hor with h | h
          · exact h1.1 h
          · exact h1.2 h
  refine ⟨hmain, ?_⟩
  rw [hmain]
  by_cases hc : addsDefault s
  · rw [if_pos hc]
    exact ⟨fun _ => hc, fun _ => rfl⟩
  · rw [if_neg hc]
    exact ⟨fun hcon => absurd hcon.symm (addDefaultDomain_ne s),
      fun hcon => absurd hcon hc⟩

/-- C5 (witness): the domain-defaulting theorem applied to concrete inputs:
busybox is defaulted, myregistry.io/app is returned unchanged. -/
theorem claim_C5_witness :
    addDefaultDomain ("busybox".toList) = ("docker.io/busybox".toList) ∧
    addDefaultDomain ("myregistry.io/app".toList) = ("myregistry.io/app".toList) := by
  constructor
  · rw [(claim_C5_domain_defaulting ("busybox".toList)).1]
    decide
  · rw [(claim_C5_domain_defaulting ("myregistry.io/app".toList)).1]
    decide

/-- C6: canonical rendering uses the tag form registry/path:tag when the
digest is empty and the digest form registry/path@digest when the digest is
non-empty; the tag never appears in the rendered string when a digest is
present, even when the tag field is non-empty (rendering is then invariant
under changing the tag). -/
theorem claim_C6_canonical_rendering (i : ImageInfo) :
    (i.digest = [] →
      ImageInfo.toStr i = i.registry ++ '/' :: i.path ++ ':' :: i.tag) ∧
    (i.digest ≠ [] →
      ImageInfo.toStr i = i.registry ++ '/' :: i.path ++ '@' :: i.digest) ∧
    (i.digest ≠ [] → ∀ u : Str,
      ImageInfo.toStr { i with tag := u } = ImageInfo.toStr i) := by
  refine ⟨?_, ?_, ?_⟩
  · intro hd
    simp only [ImageInfo.toStr, if_neg (not_not_intro hd)]
  · intro hd
    simp only [ImageInfo.toStr, if_pos hd]
  · intro hd u
    simp [ImageInfo.toStr, hd]

/-- C6 (witness): the rendering theorem applied to a concrete reference
carrying both a digest and a non-empty tag: the digest form is rendered and
the tag does not appear. -/
theorem claim_C6_witness :
    ImageInfo.toStr c6wInfo =
      ("docker.io/busybox@sha256:".toList) ++ List.replicate 64 'b' :=
  ((claim_C6_canonical_rendering c6wInfo).2.1 (by decide)).trans (by decide)

/-- C7: when parsing succeeds with neither a tag nor a digest present in the
reference, the resulting tag is latest; in particular the plain reference
busybox parses to registry docker.io, path busybox, name busybox, tag latest
and empty digest. -/
theorem claim_C7_tag_defaulting (s jp : Str) (r : RawRef)
    (hp : referenceParse (addDefaultDomain s) = Except.ok r)
    (ht : r.tag = []) (hd : r.digest = []) :
    newImageInfo s jp = Except.ok
      { registry := r.domain, name := lastSegment r.path, path := r.path,
        tag := ("latest".toList), digest := [], jsonPointer := jp } ∧
    newImageInfo ("busybox".toList) jp = Except.ok
      { registry := ("docker.io".toList), name := ("busybox".toList),
        path := ("busybox".toList), tag := ("latest".toList), digest := [],
        jsonPointer := jp } := by
  constructor
  · simp only [newImageInfo, hp, hd, ht]
    simp
  · rfl

/-- C7 (witness): the tag-defaulting theorem applied to the concrete
reference busybox. -/
theorem claim_C7_witness :
    newImageInfo ("busybox".toList) [] = Except.ok
      { registry := ("docker.io".toList), name := ("busybox".toList),
        path := ("busybox".toList), tag := ("latest".toList), digest := [],
        jsonPointer := [] } :=
  (claim_C7_tag_defaulting ("busybox".toList) []
    ⟨("docker.io".toList), ("busybox".toList), [], []⟩ (by rfl) rfl rfl).1

/-- C9: the mutate step emits exactly one replace operation per image across
the three inventory groupings, in the order containers, init containers,
ephemeral containers, with path the document-location pointer of the image
and value its canonical string; an empty inventory emits no operations and
the input bytes are returned unchanged with no error. -/
theorem claim_C9_patch_building (images : Images)
    (ap : Str → List Patch → Except Str Str) (raw : Str)
    (hap : ∀ r, ap r [] = Except.ok r) :
    buildPatches images =
      (images.containers ++ images.initContainers ++ images.ephemeralContainers).map
        (fun e => Patch.mk ("replace".toList) e.2.jsonPointer (ImageInfo.toStr e.2)) ∧
    (images.initContainers = [] → images.containers = [] →
      images.ephemeralContainers = [] →
      buildPatches images = [] ∧
      MutateResourceWithImageInfo ap raw (some images) = Except.ok raw) := by
  constructor
  · simp [buildPatches]
  · intro h1 h2 h3
    have hb : buildPatches images = [] := by simp [buildPatches, h1, h2, h3]
    refine ⟨hb, ?_⟩
    simp only [MutateResourceWithImageInfo, hb, hap raw]

/-- C9 (witness): the patch-building theorem applied to the empty inventory
and an applier satisfying the no-op contract. -/
theorem claim_C9_witness :
    buildPatches ⟨[], [], []⟩ = [] ∧
    MutateResourceWithImageInfo (fun r _ => Except.ok r) ("doc".toList)
      (some ⟨[], [], []⟩) = Except.ok ("doc".toList) :=
  (claim_C9_patch_building ⟨[], [], []⟩ (fun r _ => Except.ok r) ("doc".toList)
    (fun _ => rfl)).2 rfl rfl rfl

/-- C3: evaluation of the code at the failing input: in a Pod containers
list whose element at position 0 fails to parse, the element at 0-based
position 1 produces an image whose document-location pointer is
/spec/containers/0/image — the parse failure skipped the index increment —
and not /spec/containers/1/image as the claim requires. -/
theorem claim_C3_pointer_bug_eval :
    [c3BugBad, c3BugGood].get? 1 = some c3BugGood ∧
    extract (extractors ("Pod".toList)) ("containers".toList) c3BugManifest =
      some [c3BugImg] ∧
    c3BugImg.info.jsonPointer =
      '/' :: joinStr (['/']) (extractors ("Pod".toList) ++ [("containers".toList)]) ++
        '/' :: itoa 0 ++ '/' :: ("image".toList) ∧
    c3BugImg.info.jsonPointer ≠
      '/' :: joinStr (['/']) (extractors ("Pod".toList) ++ [("containers".toList)]) ++
        '/' :: itoa 1 ++ '/' :: ("image".toList) :=
  ⟨by rfl, by rfl, by decide, by decide⟩
